import Mathlib

/-!
Verification development for the live theme synchronization engine
(`packages/cli/src/commands/dev.ts` of the Spwig theme SDK).

The TypeScript source is shallowly embedded: raw file bytes are `List Nat`
(each entry < 256), Node library primitives (sha256, base64, utf-8
decoding, `path.extname`) are implemented as executable Lean functions,
the HTTP transport and the on-disk file system are oracles passed in as
explicit function parameters, and the chokidar watcher plus the debounce
timer map are modelled as a deterministic discrete-event run over a list
of timestamped watch events.
-/

namespace SpwigDev

/-- Raw file bytes, each entry is a byte value below 256. -/
abbrev Bytes := List Nat

/-! ## SHA-256 (model of Node `crypto.createHash('sha256')`) -/

/-- Truncate to a 32-bit word. -/
def w32 (n : Nat) : Nat := n % 4294967296

/-- Right rotation of a 32-bit word. -/
def rotr32 (n x : Nat) : Nat := w32 (x / 2 ^ n + x % 2 ^ n * 2 ^ (32 - n))

/-- Logical right shift. -/
def shr32 (n x : Nat) : Nat := x / 2 ^ n

/-- Three-way xor. -/
def xor3 (a b c : Nat) : Nat := Nat.xor (Nat.xor a b) c

def bigSigma0 (x : Nat) : Nat := xor3 (rotr32 2 x) (rotr32 13 x) (rotr32 22 x)

def bigSigma1 (x : Nat) : Nat := xor3 (rotr32 6 x) (rotr32 11 x) (rotr32 25 x)

def smallSigma0 (x : Nat) : Nat := xor3 (rotr32 7 x) (rotr32 18 x) (shr32 3 x)

def smallSigma1 (x : Nat) : Nat := xor3 (rotr32 17 x) (rotr32 19 x) (shr32 10 x)

/-- SHA-256 choice function; the complement of a 32-bit word x is 2^32-1-x. -/
def chV (x y z : Nat) : Nat := Nat.xor (Nat.land x y) (Nat.land (4294967295 - w32 x) z)

/-- SHA-256 majority function. -/
def majV (x y z : Nat) : Nat := xor3 (Nat.land x y) (Nat.land x z) (Nat.land y z)

/-- The 64 SHA-256 round constants (FIPS 180-4), written in decimal. -/
def sha256K : List Nat :=
  [1116352408, 1899447441, 3049323471, 3921009573, 961987163, 1508970993,
   2453635748, 2870763221, 3624381080, 310598401, 607225278, 1426881987,
   1925078388, 2162078206, 2614888103, 3248222580, 3835390401, 4022224774,
   264347078, 604807628, 770255983, 1249150122, 1555081692, 1996064986,
   2554220882, 2821834349, 2952996808, 3210313671, 3336571891, 3584528711,
   113926993, 338241895, 666307205, 773529912, 1294757372, 1396182291,
   1695183700, 1986661051, 2177026350, 2456956037, 2730485921, 2820302411,
   3259730800, 3345764771, 3516065817, 3600352804, 4094571909, 275423344,
   430227734, 506948616, 659060556, 883997877, 958139571, 1322822218,
   1537002063, 1747873779, 1955562222, 2024104815, 2227730452, 2361852424,
   2428436474, 2756734187, 3204031479, 3329325298]

/-- The SHA-256 initial hash value (FIPS 180-4), written in decimal. -/
def sha256H0 : List Nat :=
  [1779033703, 3144134277, 1013904242, 2773480762,
   1359893119, 2600822924, 528734635, 1541459225]

/-- Big-endian 8-byte encoding of a length in bits. -/
def be64 (n : Nat) : Bytes :=
  [n / 2 ^ 56 % 256, n / 2 ^ 48 % 256, n / 2 ^ 40 % 256, n / 2 ^ 32 % 256,
   n / 2 ^ 24 % 256, n / 2 ^ 16 % 256, n / 2 ^ 8 % 256, n % 256]

/-- SHA-256 padding: append 0x80, zeros to 56 mod 64, then the bit length. -/
def padMessage (msg : Bytes) : Bytes :=
  msg ++ 0x80 :: List.replicate ((119 - msg.length % 64) % 64) 0 ++ be64 (8 * msg.length)

/-- Group bytes into big-endian 32-bit words. -/
def toWords : Bytes → List Nat
  | a :: b :: c :: d :: rest => (((a * 256 + b) * 256 + c) * 256 + d) :: toWords rest
  | _ => []

/-- Split a word list into 16-word blocks. -/
def toBlocks : List Nat → List (List Nat)
  | [] => []
  | w :: ws => (w :: ws).take 16 :: toBlocks ((w :: ws).drop 16)
termination_by l => l.length
decreasing_by simp [List.length_drop]; omega

/-- One extension step of the SHA-256 message schedule. -/
def stepW (acc : List Nat) : List Nat :=
  acc ++ [w32 (smallSigma1 (acc.getD (acc.length - 2) 0) + acc.getD (acc.length - 7) 0 +
               smallSigma0 (acc.getD (acc.length - 15) 0) + acc.getD (acc.length - 16) 0)]

/-- Iterate a function n times. -/
def iterN (f : α → α) : Nat → α → α
  | 0, x => x
  | n + 1, x => iterN f n (f x)

/-- Extend a 16-word block to the 64-word message schedule. -/
def extendW (ws : List Nat) : List Nat := iterN stepW 48 ws

/-- One SHA-256 compression round on the 8-word working state. -/
def compressRound (kw : Nat × Nat) (st : List Nat) : List Nat :=
  match st with
  | [a, b, c, d, e, f, g, h] =>
    let t1 := w32 (h + bigSigma1 e + chV e f g + kw.1 + kw.2)
    let t2 := w32 (bigSigma0 a + majV a b c)
    [w32 (t1 + t2), a, b, c, w32 (d + t1), e, f, g]
  | other => other

/-- Compress one 16-word block into the running hash state. -/
def compressBlock (h : List Nat) (block : List Nat) : List Nat :=
  let st := (sha256K.zip (extendW block)).foldl (fun acc kw => compressRound kw acc) h
  (h.zip st).map (fun q => w32 (q.1 + q.2))

/-- SHA-256 digest of a byte sequence, as eight 32-bit words. -/
def sha256words (msg : Bytes) : List Nat :=
  (toBlocks (toWords (padMessage msg))).foldl compressBlock sha256H0

/-- Lowercase hexadecimal digit. -/
def hexDigit (n : Nat) : Char := if n < 10 then Char.ofNat (48 + n) else Char.ofNat (87 + n)

/-- Eight hex digits of a 32-bit word, most significant first. -/
def wordHex (w : Nat) : List Char :=
  [hexDigit (w / 16 ^ 7 % 16), hexDigit (w / 16 ^ 6 % 16), hexDigit (w / 16 ^ 5 % 16),
   hexDigit (w / 16 ^ 4 % 16), hexDigit (w / 16 ^ 3 % 16), hexDigit (w / 16 ^ 2 % 16),
   hexDigit (w / 16 % 16), hexDigit (w % 16)]

/-- SHA-256 hex digest, the model of
`crypto.createHash('sha256').update(content).digest('hex')`. -/
def sha256hex (msg : Bytes) : String :=
  String.mk ((sha256words msg).foldr (fun w acc => wordHex w ++ acc) [])

/-! ## Base64 encoding (model of `Buffer.toString('base64')`) -/

/-- Standard base64 alphabet. -/
def base64Char (n : Nat) : Char :=
  if n < 26 then Char.ofNat (65 + n)
  else if n < 52 then Char.ofNat (97 + (n - 26))
  else if n < 62 then Char.ofNat (48 + (n - 52))
  else if n = 62 then '+' else '/'

/-- Base64-encode bytes in 3-byte groups with '=' padding. -/
def base64encodeChars : Bytes → List Char
  | [] => []
  | [a] => [base64Char (a / 4), base64Char (a % 4 * 16), '=', '=']
  | [a, b] => [base64Char (a / 4), base64Char (a % 4 * 16 + b / 16), base64Char (b % 16 * 4), '=']
  | a :: b :: c :: rest =>
    base64Char (a / 4) :: base64Char (a % 4 * 16 + b / 16) ::
    base64Char (b % 16 * 4 + c / 64) :: base64Char (c % 64) :: base64encodeChars rest

def base64encode (b : Bytes) : String := String.mk (base64encodeChars b)

/-! ## UTF-8 decoding (model of `Buffer.toString('utf-8')`) -/

/-- The Unicode replacement character emitted for invalid sequences. -/
def replChar : Char := Char.ofNat 65533

/-- Is a byte a UTF-8 continuation byte. -/
def contOk (b : Nat) : Bool := 128 ≤ b && b < 192

/-- Valid range of the second byte of a multi-byte sequence given its lead
byte, per the WHATWG decoder Node uses (rules out overlongs and
surrogates at the second byte). -/
def cont2Ok (b b1 : Nat) : Bool :=
  if b = 224 then 160 ≤ b1 && b1 < 192
  else if b = 237 then 128 ≤ b1 && b1 < 160
  else if b = 240 then 144 ≤ b1 && b1 < 192
  else if b = 244 then 128 ≤ b1 && b1 < 144
  else contOk b1

/-- Decode a UTF-8 byte stream, substituting the replacement character for
invalid or truncated sequences and resuming at the offending byte. -/
def utf8decodeAux : Bytes → List Char
  | [] => []
  | b :: rest =>
    if b < 128 then Char.ofNat b :: utf8decodeAux rest
    else if b < 194 then replChar :: utf8decodeAux rest
    else if b < 224 then
      match rest with
      | [] => [replChar]
      | b1 :: rest1 =>
        if contOk b1 then Char.ofNat ((b - 192) * 64 + (b1 - 128)) :: utf8decodeAux rest1
        else replChar :: utf8decodeAux (b1 :: rest1)
    else if b < 240 then
      match rest with
      | [] => [replChar]
      | b1 :: rest1 =>
        if cont2Ok b b1 then
          match rest1 with
          | [] => [replChar]
          | b2 :: rest2 =>
            if contOk b2 then
              Char.ofNat ((b - 224) * 4096 + (b1 - 128) * 64 + (b2 - 128)) :: utf8decodeAux rest2
            else replChar :: utf8decodeAux (b2 :: rest2)
        else replChar :: utf8decodeAux (b1 :: rest1)
    else if b < 245 then
      match rest with
      | [] => [replChar]
      | b1 :: rest1 =>
        if cont2Ok b b1 then
          match rest1 with
          | [] => [replChar]
          | b2 :: rest2 =>
            if contOk b2 then
              match rest2 with
              | [] => [replChar]
              | b3 :: rest3 =>
                if contOk b3 then
                  Char.ofNat ((b - 240) * 262144 + (b1 - 128) * 4096 +
                    (b2 - 128) * 64 + (b3 - 128)) :: utf8decodeAux rest3
                else replChar :: utf8decodeAux (b3 :: rest3)
            else replChar :: utf8decodeAux (b2 :: rest2)
        else replChar :: utf8decodeAux (b1 :: rest1)
    else replChar :: utf8decodeAux rest
termination_by l => l.length
decreasing_by all_goals simp; try omega

def utf8decode (b : Bytes) : String := String.mk (utf8decodeAux b)

/-! ## Path helpers (models of Node `path` functions on posix paths) -/

/-- Lowercase an ASCII letter, model of the per-character effect of
`String.prototype.toLowerCase` on extension strings. -/
def lowerChar (c : Char) : Char :=
  if 65 ≤ c.toNat && c.toNat ≤ 90 then Char.ofNat (c.toNat + 32) else c

def strToLower (s : String) : String := String.mk (s.data.map lowerChar)

/-- The basename of a posix path: the part after the last slash. -/
def basenameChars (p : String) : List Char :=
  (p.data.reverse.takeWhile (fun c => c ≠ '/')).reverse

/-- Model of `path.extname`: the substring of the basename from its last dot,
empty when there is no dot or the only dot is the leading character. -/
def extname (p : String) : String :=
  let b := basenameChars p
  if b = ['.', '.'] then ""
  else
    let restRev := b.reverse.takeWhile (fun c => c ≠ '.')
    if restRev.length = b.length then ""
    else if b.length - restRev.length - 1 = 0 then ""
    else String.mk ('.' :: restRev.reverse)

/-- Join path components with slashes (posix `path.join` on plain names). -/
def joinPath : List String → String
  | [] => ""
  | [x] => x
  | x :: rest => x ++ "/" ++ joinPath rest

/-! ## FileChange construction (dev.ts lines 36-44, 166-176, 330-339) -/

inductive Encoding where
  | utf8
  | base64
deriving DecidableEq, Repr

/-- The `FileChange` interface of dev.ts. -/
structure FileChange where
  path : String
  content : String
  checksum : String
  encoding : Encoding
deriving DecidableEq, Repr

/-- dev.ts line 44: file extensions that should be encoded as base64. -/
def BINARY_EXTENSIONS : List String :=
  [".png", ".jpg", ".jpeg", ".webp", ".woff", ".woff2", ".ico", ".gif"]

/-- The FileChange built by `handleChange` at flush time (dev.ts 167-176):
extension taken from the event path, lowercased, checked against the binary
allow-list; checksum over the raw bytes. -/
def classifyFile (p : String) (content : Bytes) : FileChange :=
  let ext := strToLower (extname p)
  let isBinary := BINARY_EXTENSIONS.contains ext
  { path := p
    content := if isBinary then base64encode content else utf8decode content
    checksum := sha256hex content
    encoding := if isBinary then Encoding.base64 else Encoding.utf8 }

/-- The FileChange pushed by `collectThemeFiles` (dev.ts 330-339): the
extension is computed from the entry name, the path field is the path
relative to the theme root. -/
def collectChange (relPath : String) (name : String) (content : Bytes) : FileChange :=
  let ext := strToLower (extname name)
  let isBinary := BINARY_EXTENSIONS.contains ext
  { path := relPath
    content := if isBinary then base64encode content else utf8decode content
    checksum := sha256hex content
    encoding := if isBinary then Encoding.base64 else Encoding.utf8 }

/-! ## Theme directory model and `collectThemeFiles` (dev.ts 312-346) -/

/-- Does a string start with the given prefix of characters. -/
def strStartsWith (s pre : String) : Bool := List.isPrefixOf pre.data s.data

/-- Does a string end with the given suffix of characters. -/
def strEndsWith (s post : String) : Bool := List.isSuffixOf post.data s.data

/-- A directory entry: a regular file with its raw bytes, or a directory
with its listing in `readdir` order. -/
inductive FsEntry where
  | file : String → Bytes → FsEntry
  | dir : String → List FsEntry → FsEntry
deriving Repr

/-- dev.ts line 323: entries skipped by the initial collection walk. -/
def collectSkip (name : String) : Bool :=
  strStartsWith name "." || name == "node_modules" || name == "dist"

mutual

/-- The walk of `collectThemeFiles` on one entry; `pfx` is the component
path of the containing directory relative to the theme root. -/
def collectEntry (pfx : List String) : FsEntry → List FileChange
  | FsEntry.file name c =>
    if collectSkip name then [] else [collectChange (joinPath (pfx ++ [name])) name c]
  | FsEntry.dir name entries =>
    if collectSkip name then [] else collectEntries (pfx ++ [name]) entries

/-- The walk of `collectThemeFiles` on a directory listing. -/
def collectEntries (pfx : List String) : List FsEntry → List FileChange
  | [] => []
  | e :: rest => collectEntry pfx e ++ collectEntries pfx rest

end

/-- `collectThemeFiles` over the theme root listing. -/
def collectThemeFiles (tree : List FsEntry) : List FileChange := collectEntries [] tree

mutual

/-- Look up the bytes of the file reached by the given component path. -/
def lookupEntry : FsEntry → List String → Option Bytes
  | FsEntry.file name c, comps => if comps = [name] then some c else none
  | FsEntry.dir name entries, comp :: rest =>
    if comp = name then lookupEntries entries rest else none
  | FsEntry.dir _ _, [] => none

/-- Look up a component path in a directory listing (first match). -/
def lookupEntries : List FsEntry → List String → Option Bytes
  | [], _ => none
  | e :: rest, comps =>
    match lookupEntry e comps with
    | some c => some c
    | none => lookupEntries rest comps

end

/-- The chokidar `ignored` configuration of dev.ts lines 135-140, evaluated
on a path given as components relative to the theme root (the absolute
theme-root prefix is assumed free of dot components): the dotfile regex,
the node_modules and dist directory globs, and the log-file glob. -/
def watcherIgnored (comps : List String) : Bool :=
  comps.any (fun x => strStartsWith x ".") ||
  comps.dropLast.contains "node_modules" ||
  comps.dropLast.contains "dist" ||
  (match comps.getLast? with
   | some b => strEndsWith b ".log"
   | none => false)

/-! ## HTTP transport models (dev.ts 222-310, 348-391) -/

/-- The `DevSession` interface of dev.ts. -/
structure DevSession where
  token : String
  expires_at : String
  theme_dev_url : String
  message : String
deriving DecidableEq, Repr

/-- The `SyncResult` interface of dev.ts. -/
structure SyncResult where
  success : Bool
  synced : List String
  errors : List String
  reload_type : String
deriving DecidableEq, Repr

/-- The validation payload returned by the validate endpoint. -/
structure ValidationRes where
  is_valid : Bool
  errors : List String
  warnings : List String
  error_count : Nat
  warning_count : Nat
deriving DecidableEq, Repr

/-- An HTTP response as the code observes it: `ok` and `status` from fetch,
`statusText` for the body-parse fallback, `jsonOk` whether
`response.json()` succeeded, `errField` the `error` field of the parsed
error body (none when absent), and `payload` the parsed success payload. -/
structure HttpResp (α : Type) where
  ok : Bool
  status : Nat
  statusText : String
  jsonOk : Bool
  errField : Option String
  payload : α
deriving DecidableEq, Repr

/-- The error message thrown on a non-success status (dev.ts 289-291 and
358-360): the `error` field of the parsed body when the body parses and
the field is a non-empty string (JavaScript `||` treats the empty string
as falsy), else the `statusText` fallback object, else the generic
status-based message. -/
def httpErrorMessage (generic : String) (r : HttpResp α) : String :=
  let e := if r.jsonOk then r.errField else some r.statusText
  match e with
  | some m => if m = "" then generic ++ toString r.status else m
  | none => generic ++ toString r.status

/-- `connectToShop` (dev.ts 272-294) as a function of the connect response:
returns the parsed session on success, throws (models as `Except.error`)
the extracted message on a non-success status. -/
def connectToShop (r : HttpResp DevSession) : Except String DevSession :=
  if r.ok then Except.ok r.payload
  else Except.error (httpErrorMessage "Connection failed: " r)

/-- `syncFiles` (dev.ts 348-364) as a function of the sync response. -/
def syncFiles (r : HttpResp SyncResult) : Except String SyncResult :=
  if r.ok then Except.ok r.payload
  else Except.error (httpErrorMessage "Sync failed: " r)

/-- `validateTheme` (dev.ts 366-391): no error-body parsing, only the
generic status message. -/
def validateTheme (r : HttpResp ValidationRes) : Except String ValidationRes :=
  if r.ok then Except.ok r.payload
  else Except.error ("Validation request failed: " ++ toString r.status)

/-- `disconnectSession` (dev.ts 297-310): the fetch may fail (`netDisc` is
its outcome) but the surrounding try/catch always converts failure into a
warning line, so the function never throws. -/
def disconnectSession (netDisc : Except String Unit) : List String :=
  match netDisc with
  | Except.ok _ => ["Disconnected"]
  | Except.error _ => ["Failed to disconnect cleanly"]

/-! ## Shutdown path (dev.ts 46-71: `cleanup` and the signal handlers) -/

/-- The mutable locals of `devCommand` observed by `cleanup`, plus counters
for the externally visible effects. -/
structure CliState where
  watcher : Bool
  session : Option String
  watcherCloseCalls : Nat
  disconnectAttempts : Nat
  warnings : List String
deriving DecidableEq, Repr

/-- `cleanup` (dev.ts 52-59): closes the watcher when one exists and calls
`disconnectSession` when a session exists. Neither `watcher` nor
`session` is cleared, faithful to the source. -/
def cleanup (netDisc : Except String Unit) (s : CliState) : CliState :=
  let s1 := if s.watcher then { s with watcherCloseCalls := s.watcherCloseCalls + 1 } else s
  if s1.session.isSome then
    { s1 with
      disconnectAttempts := s1.disconnectAttempts + 1
      warnings := s1.warnings ++ disconnectSession netDisc }
  else s1

/-! ## The `devCommand` startup pipeline (dev.ts 46-220) -/

/-- The world a `devCommand` run observes: whether manifest.json exists and
the responses of the connect, initial-sync and validate endpoints. -/
structure DevWorld where
  manifestExists : Bool
  connResp : HttpResp DevSession
  syncResp : HttpResp SyncResult
  valResp : HttpResp ValidationRes
deriving Repr

/-- Externally visible outcome of the `devCommand` startup pipeline.
`exitCode = none` means the process reached the watch loop and keeps
running. -/
structure DevOutcome where
  exitCode : Option Nat
  watcherStarted : Bool
  initialSyncAttempts : Nat
  validateAttempts : Nat
  disconnectAttempts : Nat
  reportedErrors : List String
  fatalError : Option String
deriving DecidableEq, Repr

/-- The `devCommand` pipeline (dev.ts 73-219): manifest check, connect,
initial sync, validate, then the watcher; any thrown error is caught at
line 208, `cleanup` runs, and the process exits 1. -/
def devCommand (w : DevWorld) : DevOutcome :=
  if ¬ w.manifestExists then
    { exitCode := some 1, watcherStarted := false, initialSyncAttempts := 0,
      validateAttempts := 0, disconnectAttempts := 0, reportedErrors := [],
      fatalError := none }
  else
    match connectToShop w.connResp with
    | Except.error m =>
      -- catch: cleanup with watcher and session still null, then exit 1
      { exitCode := some 1, watcherStarted := false, initialSyncAttempts := 0,
        validateAttempts := 0, disconnectAttempts := 0, reportedErrors := [],
        fatalError := some m }
    | Except.ok _sess =>
      match syncFiles w.syncResp with
      | Except.error m =>
        -- catch: cleanup with session set attempts one disconnect, exit 1
        { exitCode := some 1, watcherStarted := false, initialSyncAttempts := 1,
          validateAttempts := 0, disconnectAttempts := 1, reportedErrors := [],
          fatalError := some m }
      | Except.ok sr =>
        -- success=false is reported per error and is non-fatal (dev.ts 102-107)
        let reported := if sr.success then [] else sr.errors
        match validateTheme w.valResp with
        | Except.error m =>
          { exitCode := some 1, watcherStarted := false, initialSyncAttempts := 1,
            validateAttempts := 1, disconnectAttempts := 1, reportedErrors := reported,
            fatalError := some m }
        | Except.ok _v =>
          -- watcher starts, the keep-alive promise never resolves
          { exitCode := none, watcherStarted := true, initialSyncAttempts := 1,
            validateAttempts := 1, disconnectAttempts := 0, reportedErrors := reported,
            fatalError := none }

/-! ## The watch loop (dev.ts 133-200): debounce map and flush semantics

A watcher run is modelled as a deterministic discrete-event execution over
a list of timestamped events. File paths are the slash-relative paths the
handlers work with (`path.relative` of the absolute event path). The disk
and the sync endpoint are oracles indexed by time, so that reading at
flush time versus event time is observable. -/

/-- dev.ts line 151. -/
def DEBOUNCE_MS : Nat := 200

/-- Kind of a chokidar event wired up at dev.ts 193-200. -/
inductive EvKind where
  | add
  | change
  | unlink
deriving DecidableEq, Repr

/-- A timestamped watch event on a relative path. -/
structure Ev where
  time : Nat
  kind : EvKind
  path : String
deriving DecidableEq, Repr

/-- The environment of the watch loop: the disk content of each relative
path at each instant (none = missing or unreadable, `fs.readFile`
throws), and the sync endpoint response to a single-file batch pushed at
a given instant (`Except.error` = `syncFiles` throws). -/
structure WatchWorld where
  disk : Nat → String → Option Bytes
  net : Nat → FileChange → Except String SyncResult

/-- The observable state of the watch loop: the `pendingChanges` timer map
(path, deadline), plus logs of flushes (timer firings), sync calls
actually issued, and console lines. -/
structure WatchState where
  pending : List (String × Nat)
  flushes : List (Nat × String)
  calls : List (Nat × String × FileChange)
  log : List String
deriving DecidableEq, Repr

def initWatchState : WatchState :=
  { pending := [], flushes := [], calls := [], log := [] }

/-- The try-block of the debounced timeout body (dev.ts 166-186): read the
file, classify, push. An `Except.error` is an exception reaching the
catch at line 187. -/
def flushTry (w : WatchWorld) (d : Nat) (p : String) : Except String SyncResult :=
  match w.disk d p with
  | none => Except.error "ENOENT"
  | some c => w.net d (classifyFile p c)

/-- One timer firing at deadline `d` for path `p` (the setTimeout callback
of dev.ts 163-190, minus the `pendingChanges` bookkeeping handled by the
run function). Every failure of the try-block is converted by the catch
into a log line; the callback never throws. -/
def flushStep (w : WatchWorld) (d : Nat) (p : String) (s : WatchState) : WatchState :=
  match w.disk d p with
  | none =>
    { s with flushes := s.flushes ++ [(d, p)], log := s.log ++ ["read error " ++ p] }
  | some c =>
    let f := classifyFile p c
    match w.net d f with
    | Except.error _ =>
      { s with flushes := s.flushes ++ [(d, p)], calls := s.calls ++ [(d, p, f)],
               log := s.log ++ ["read error " ++ p] }
    | Except.ok r =>
      if r.success then
        { s with flushes := s.flushes ++ [(d, p)], calls := s.calls ++ [(d, p, f)],
                 log := s.log ++ ["synced " ++ p] }
      else
        { s with flushes := s.flushes ++ [(d, p)], calls := s.calls ++ [(d, p, f)],
                 log := s.log ++ (("failed " ++ p) :: r.errors) }

/-- Fire the timers of the pending list that are due at instant `t`, in
list order (with nondecreasing event times the list is deadline-sorted,
so this is firing in deadline order); returns the remaining pending list
and the updated state. -/
def fireDueAux (w : WatchWorld) (t : Nat) :
    List (String × Nat) → WatchState → List (String × Nat) × WatchState
  | [], s => ([], s)
  | (p, d) :: rest, s =>
    if d ≤ t then fireDueAux w t rest (flushStep w d p s)
    else
      let pr := fireDueAux w t rest s
      ((p, d) :: pr.1, pr.2)

/-- Let time advance to instant `t`: due timers fire. -/
def fireDue (w : WatchWorld) (t : Nat) (s : WatchState) : WatchState :=
  let pr := fireDueAux w t s.pending { s with pending := [] }
  { pr.2 with pending := pr.1 }

/-- Dispatch of one event (dev.ts 193-200): add and change run
`handleChange`, which cancels any pending timer for the relative path and
schedules a fresh one 200ms out; unlink only logs. -/
def handleEvent (e : Ev) (s : WatchState) : WatchState :=
  match e.kind with
  | EvKind.unlink => { s with log := s.log ++ ["deleted " ++ e.path] }
  | _ =>
    { s with pending :=
        s.pending.filter (fun q => !(q.1 == e.path)) ++ [(e.path, e.time + DEBOUNCE_MS)] }

/-- Process one event: time advances to its instant, then the handler runs. -/
def stepEv (w : WatchWorld) (s : WatchState) (e : Ev) : WatchState :=
  handleEvent e (fireDue w e.time s)

/-- Process a list of events in order. -/
def runEvents (w : WatchWorld) : List Ev → WatchState → WatchState
  | [], s => s
  | e :: rest, s => runEvents w rest (stepEv w s e)

/-- Fire every remaining timer (the keep-alive process outlives every
deadline). -/
def fireAll (w : WatchWorld) : List (String × Nat) → WatchState → WatchState
  | [], s => s
  | (p, d) :: rest, s => fireAll w rest (flushStep w d p s)

/-- A complete watch-loop run over a finite event trace. -/
def runWatch (w : WatchWorld) (evs : List Ev) : WatchState :=
  let s := runEvents w evs initWatchState
  fireAll w s.pending { s with pending := [] }

/-- A burst on path `p`: every event is an add or change on `p`, and each
arrives within the 200ms quiet window of the previous instant `t`. -/
def sameBurst (p : String) : Nat → List Ev → Prop
  | _, [] => True
  | t, e :: rest =>
    e.path = p ∧ e.kind ≠ EvKind.unlink ∧ t ≤ e.time ∧ e.time < t + DEBOUNCE_MS ∧
    sameBurst p e.time rest

/-- The instant of the last event of a trace (the given start instant for
an empty trace). -/
def lastT (t : Nat) : List Ev → Nat
  | [] => t
  | e :: rest => lastT e.time rest

/-- No two pending timers share a path. -/
def noDupKeys : List (String × Nat) → Bool
  | [] => true
  | (p, _) :: rest => !(rest.any (fun q => q.1 == p)) && noDupKeys rest

/-- Every sync call a state has issued carries the file content the disk
held at the instant of that call (read-at-flush-time; no stale bytes). -/
def FreshCalls (w : WatchWorld) (s : WatchState) : Prop :=
  ∀ x ∈ s.calls, ∃ c, w.disk x.1 x.2.1 = some c ∧ x.2.2 = classifyFile x.2.1 c

/-! ## Concrete sample data used by the witness theorems -/

def dummySession : DevSession :=
  { token := "t", expires_at := "never", theme_dev_url := "/dev", message := "dev" }

def okSync : SyncResult := { success := true, synced := [], errors := [], reload_type := "full" }

def okVal : ValidationRes :=
  { is_valid := true, errors := [], warnings := [], error_count := 0, warning_count := 0 }

def c4State : CliState :=
  { watcher := true, session := some "tok", watcherCloseCalls := 0,
    disconnectAttempts := 0, warnings := [] }

def c5World : DevWorld :=
  { manifestExists := true,
    connResp := { ok := false, status := 401, statusText := "Unauthorized", jsonOk := true,
                  errField := some "invalid credentials", payload := dummySession },
    syncResp := { ok := true, status := 200, statusText := "OK", jsonOk := true,
                  errField := none, payload := okSync },
    valResp := { ok := true, status := 200, statusText := "OK", jsonOk := true,
                 errField := none, payload := okVal } }

def c7Resp : HttpResp SyncResult :=
  { ok := false, status := 500, statusText := "Server Error", jsonOk := false,
    errField := none, payload := okSync }

def c7World : DevWorld :=
  { manifestExists := true,
    connResp := { ok := true, status := 200, statusText := "OK", jsonOk := true,
                  errField := none, payload := dummySession },
    syncResp := { ok := true, status := 200, statusText := "OK", jsonOk := true,
                  errField := none,
                  payload := { success := false, synced := ["a"], errors := ["bad liquid"],
                               reload_type := "full" } },
    valResp := { ok := true, status := 200, statusText := "OK", jsonOk := true,
                 errField := none, payload := okVal } }

def wC1 : WatchWorld :=
  { disk := fun _ _ => some [104, 105],
    net := fun _ _ => Except.ok { success := true, synced := ["a.txt"], errors := [],
                                  reload_type := "full" } }

def wC6 : WatchWorld :=
  { disk := fun _ _ => some [104],
    net := fun t _ =>
      if t < 500 then Except.error "timeout"
      else Except.ok { success := true, synced := ["p"], errors := [], reload_type := "full" } }

def wC8 : WatchWorld :=
  { disk := fun t _ => if t < 150 then some [104] else none,
    net := fun _ _ => Except.ok { success := true, synced := [], errors := [], reload_type := "full" } }

def c10Tree : List FsEntry :=
  [FsEntry.file "manifest.json" [123, 125],
   FsEntry.dir "assets" [FsEntry.file "debug.log" [104, 105]]]

/-! ## Helper lemmas about the watch-loop semantics -/

theorem any_filter_false (l : List (String × Nat)) (f g : (String × Nat) → Bool)
    (h : l.any g = false) : (l.filter f).any g = false := by
  induction l with
  | nil => simp
  | cons q rest ih =>
    simp only [List.any_cons, Bool.or_eq_false_iff] at h
    by_cases hf : f q = true <;>
      simp [List.filter_cons, hf, List.any_cons, h.1, ih h.2]

theorem filter_no_key (l : List (String × Nat)) (p : String) :
    (l.filter (fun q => !(q.1 == p))).any (fun q => q.1 == p) = false := by
  induction l with
  | nil => simp
  | cons q rest ih =>
    by_cases hq : (q.1 == p) = true <;> simp [List.filter_cons, hq, List.any_cons, ih]

theorem nd_filter (f : (String × Nat) → Bool) :
    ∀ l, noDupKeys l = true → noDupKeys (l.filter f) = true := by
  intro l
  induction l with
  | nil => simp
  | cons q rest ih =>
    obtain ⟨p, d⟩ := q
    intro h
    simp only [noDupKeys, Bool.and_eq_true, Bool.not_eq_true'] at h
    by_cases hf : f (p, d) = true
    · simp only [List.filter_cons, hf, if_pos]
      simp only [noDupKeys, Bool.and_eq_true, Bool.not_eq_true']
      exact ⟨any_filter_false rest f _ h.1, ih h.2⟩
    · simp only [List.filter_cons, hf]
      exact ih h.2

theorem nd_append (p : String) (d : Nat) :
    ∀ l, noDupKeys l = true → l.any (fun q => q.1 == p) = false →
      noDupKeys (l ++ [(p, d)]) = true := by
  intro l
  induction l with
  | nil => intro _ _; simp [noDupKeys]
  | cons q rest ih =>
    obtain ⟨p1, d1⟩ := q
    intro h1 h2
    simp only [noDupKeys, Bool.and_eq_true, Bool.not_eq_true'] at h1
    simp only [List.any_cons, Bool.or_eq_false_iff] at h2
    have hne : p1 ≠ p := by
      intro hEq
      have hx := h2.1
      rw [hEq] at hx
      simp at hx
    have hkey : ((rest ++ [(p, d)]).any fun q => q.1 == p1) = false := by
      rw [List.any_append]
      simp only [List.any_cons, List.any_nil, Bool.or_false, Bool.or_eq_false_iff]
      exact ⟨h1.1, by simp [Ne.symm hne]⟩
    simp only [List.cons_append, noDupKeys, Bool.and_eq_true, Bool.not_eq_true']
    exact ⟨hkey, ih h1.2 h2.2⟩

theorem fireDueAux_fst (w : WatchWorld) (t : Nat) :
    ∀ (l : List (String × Nat)) (s : WatchState),
      (fireDueAux w t l s).1 = l.filter (fun q => !(decide (q.2 ≤ t))) := by
  intro l
  induction l with
  | nil => intro s; simp [fireDueAux]
  | cons q rest ih =>
    intro s
    obtain ⟨p, d⟩ := q
    by_cases hd : d ≤ t <;> simp [fireDueAux, hd, List.filter_cons, ih]

theorem handleEvent_calls (e : Ev) (s : WatchState) :
    (handleEvent e s).calls = s.calls := by
  cases h : e.kind <;> simp [handleEvent, h]

/-- C1 invariant step: processing any event preserves key-uniqueness of the
pending timer map. -/
theorem nd_step (w : WatchWorld) (e : Ev) (s : WatchState)
    (h : noDupKeys s.pending = true) :
    noDupKeys ((stepEv w s e).pending) = true := by
  have hfd : noDupKeys ((fireDue w e.time s).pending) = true := by
    simp only [fireDue, fireDueAux_fst]
    exact nd_filter _ _ h
  cases hk : e.kind
  case unlink => simpa [stepEv, handleEvent, hk] using hfd
  all_goals
    simp only [stepEv, handleEvent, hk]
    exact nd_append _ _ _ (nd_filter _ _ hfd) (filter_no_key _ _)

/-- During a burst on path p no timer fires and the single pending entry is
repeatedly replaced, its deadline tracking the latest event. -/
theorem runEvents_burst (w : WatchWorld) (p : String) :
    ∀ (evs : List Ev) (t : Nat) (s : WatchState),
      sameBurst p t evs → s.pending = [(p, t + DEBOUNCE_MS)] →
      runEvents w evs s = { s with pending := [(p, lastT t evs + DEBOUNCE_MS)] } := by
  intro evs
  induction evs with
  | nil =>
    intro t s _ hpend
    simp [runEvents, lastT, ← hpend]
  | cons e rest ih =>
    intro t s hb hpend
    obtain ⟨hep, hek, ht1, ht2, hrest⟩ := hb
    have hfd : fireDue w e.time s = s := by
      unfold fireDue
      rw [hpend]
      simp only [fireDueAux]
      rw [if_neg (by omega : ¬ (t + DEBOUNCE_MS ≤ e.time))]
      simp only [fireDueAux]
      rw [← hpend]
    have hhe : handleEvent e s = { s with pending := [(p, e.time + DEBOUNCE_MS)] } := by
      cases hk : e.kind
      case unlink => exact absurd hk hek
      all_goals
        simp only [handleEvent, hk]
        rw [hpend, hep]
        simp [List.filter_cons]
    show runEvents w rest (stepEv w s e) = _
    rw [stepEv, hfd, hhe]
    rw [ih e.time _ hrest rfl]
    simp [lastT]

/-! ## Freshness helpers (no stale content is ever pushed) -/

theorem fresh_flushStep (w : WatchWorld) (d : Nat) (p : String) (s : WatchState)
    (h : FreshCalls w s) : FreshCalls w (flushStep w d p s) := by
  intro x hx
  unfold flushStep at hx
  cases hdisk : w.disk d p with
  | none =>
    rw [hdisk] at hx
    exact h x hx
  | some c =>
    rw [hdisk] at hx
    simp only at hx
    cases hnet : w.net d (classifyFile p c) with
    | error e =>
      rw [hnet] at hx
      simp only [List.mem_append, List.mem_singleton] at hx
      rcases hx with hx | hx
      · exact h x hx
      · subst hx; exact ⟨c, hdisk, rfl⟩
    | ok r =>
      rw [hnet] at hx
      by_cases hr : r.success = true <;>
        simp only [hr, if_true, if_false, Bool.false_eq_true] at hx <;>
        simp only [List.mem_append, List.mem_singleton] at hx <;>
        (rcases hx with hx | hx
         · exact h x hx
         · subst hx; exact ⟨c, hdisk, rfl⟩)

theorem fresh_fireDueAux (w : WatchWorld) (t : Nat) :
    ∀ (l : List (String × Nat)) (s : WatchState),
      FreshCalls w s → FreshCalls w (fireDueAux w t l s).2 := by
  intro l
  induction l with
  | nil => intro s h; simpa [fireDueAux] using h
  | cons q rest ih =>
    intro s h
    obtain ⟨p, d⟩ := q
    by_cases hd : d ≤ t
    · simp only [fireDueAux, hd, if_true]
      exact ih _ (fresh_flushStep w d p s h)
    · simp only [fireDueAux, hd, if_false]
      exact ih _ h

theorem fresh_fireAll (w : WatchWorld) :
    ∀ (l : List (String × Nat)) (s : WatchState),
      FreshCalls w s → FreshCalls w (fireAll w l s) := by
  intro l
  induction l with
  | nil => intro s h; simpa [fireAll] using h
  | cons q rest ih =>
    intro s h
    obtain ⟨p, d⟩ := q
    exact ih _ (fresh_flushStep w d p s h)

theorem fresh_runEvents (w : WatchWorld) :
    ∀ (evs : List Ev) (s : WatchState),
      FreshCalls w s → FreshCalls w (runEvents w evs s) := by
  intro evs
  induction evs with
  | nil => intro s h; exact h
  | cons e rest ih =>
    intro s h
    refine ih _ ?_
    intro x hx
    have hx2 : x ∈ (fireDue w e.time s).calls := by
      simpa only [stepEv, handleEvent_calls] using hx
    have hfresh : FreshCalls w { s with pending := ([] : List (String × Nat)) } :=
      fun y hy => h y hy
    exact fresh_fireDueAux w e.time s.pending _ hfresh x hx2

/-- Every call of a complete run reads the disk at its own flush instant. -/
theorem fresh_runWatch (w : WatchWorld) (evs : List Ev) :
    FreshCalls w (runWatch w evs) := by
  have h0 : FreshCalls w initWatchState := by intro x hx; simp [initWatchState] at hx
  have h1 := fresh_runEvents w evs initWatchState h0
  unfold runWatch
  exact fresh_fireAll w _ _ (fun y hy => h1 y hy)

/-! ## Helper lemmas about the collection walk -/

theorem getLast?_mem_self {α : Type} : ∀ (l : List α) (a : α), l.getLast? = some a → a ∈ l
  | [], a, h => by simp at h
  | [x], a, h => by
    simp only [List.getLast?_singleton, Option.some.injEq] at h
    simp [h]
  | x :: y :: rest, a, h => by
    rw [List.getLast?_cons_cons] at h
    exact List.mem_cons_of_mem x (getLast?_mem_self (y :: rest) a h)

theorem lookupEntry_nil (e : FsEntry) : lookupEntry e [] = none := by
  cases e with
  | file name c => simp [lookupEntry]
  | dir name es => rfl

theorem lookupEntries_nil : ∀ es, lookupEntries es [] = none := by
  intro es
  induction es with
  | nil => rfl
  | cons e rest ih => simp [lookupEntries, lookupEntry_nil, ih]

mutual

/-- A file reachable through unskipped components is collected, with the
path field joining the accumulated components. -/
theorem lookup_mem_entry : ∀ (e : FsEntry) (comps : List String) (c : Bytes)
    (pfx : List String) (name : String),
    lookupEntry e comps = some c →
    (∀ x ∈ comps, collectSkip x = false) →
    comps.getLast? = some name →
    collectChange (joinPath (pfx ++ comps)) name c ∈ collectEntry pfx e
  | FsEntry.file fname fc, comps, c, pfx, name, hlk, hsk, hlast => by
    simp only [lookupEntry] at hlk
    by_cases hc : comps = [fname]
    · subst hc
      rw [if_pos rfl] at hlk
      have hcc : fc = c := by injection hlk
      subst hcc
      have hname : fname = name := by
        simpa only [List.getLast?_singleton, Option.some.injEq] using hlast
      subst hname
      have hskipF : collectSkip fname = false := hsk fname (by simp)
      simp [collectEntry, hskipF]
    · rw [if_neg hc] at hlk; cases hlk
  | FsEntry.dir dname es, comps, c, pfx, name, hlk, hsk, hlast => by
    cases comps with
    | nil => rw [show lookupEntry (FsEntry.dir dname es) [] = none from rfl] at hlk; cases hlk
    | cons comp rest =>
      simp only [lookupEntry] at hlk
      by_cases hc : comp = dname
      · rw [if_pos hc] at hlk
        subst hc
        have hrest : rest ≠ [] := by
          intro hnil; subst hnil; rw [lookupEntries_nil] at hlk; cases hlk
      -- the last component of comp :: rest is the last of the nonempty rest
        have hlast2 : rest.getLast? = some name := by
          cases rest with
          | nil => exact absurd rfl hrest
          | cons r rs => rw [List.getLast?_cons_cons] at hlast; exact hlast
        have hskD : collectSkip comp = false := hsk comp (by simp)
        have ih := lookup_mem_entries es rest c (pfx ++ [comp]) name hlk
          (fun x hx => hsk x (by simp [hx])) hlast2
        have hjoin : pfx ++ comp :: rest = (pfx ++ [comp]) ++ rest := by simp
        rw [hjoin]
        simpa [collectEntry, hskD] using ih
      · rw [if_neg hc] at hlk; cases hlk

/-- Listing version of `lookup_mem_entry`. -/
theorem lookup_mem_entries : ∀ (es : List FsEntry) (comps : List String) (c : Bytes)
    (pfx : List String) (name : String),
    lookupEntries es comps = some c →
    (∀ x ∈ comps, collectSkip x = false) →
    comps.getLast? = some name →
    collectChange (joinPath (pfx ++ comps)) name c ∈ collectEntries pfx es
  | [], comps, c, pfx, name, hlk, _, _ => by simp [lookupEntries] at hlk
  | e :: rest, comps, c, pfx, name, hlk, hsk, hlast => by
    simp only [lookupEntries] at hlk
    cases he : lookupEntry e comps with
    | some c2 =>
      rw [he] at hlk
      have hlk2 : some c2 = some c := hlk
      have hcc : c2 = c := by injection hlk2
      subst hcc
      have hmem := lookup_mem_entry e comps c2 pfx name he hsk hlast
      simp only [collectEntries, List.mem_append]
      exact Or.inl hmem
    | none =>
      rw [he] at hlk
      have hlk2 : lookupEntries rest comps = some c := hlk
      have hmem := lookup_mem_entries rest comps c pfx name hlk2 hsk hlast
      simp only [collectEntries, List.mem_append]
      exact Or.inr hmem

end

theorem flushStep_init (w : WatchWorld) (d : Nat) (p : String) :
    (flushStep w d p initWatchState).flushes = [(d, p)] ∧
    (flushStep w d p initWatchState).calls =
      (match w.disk d p with
       | some c => [(d, p, classifyFile p c)]
       | none => []) := by
  cases hd : w.disk d p with
  | none => simp [flushStep, hd, initWatchState]
  | some c =>
    cases hn : w.net d (classifyFile p c) with
    | error e1 => simp [flushStep, hd, hn, initWatchState]
    | ok r => by_cases hr : r.success = true <;> simp [flushStep, hd, hn, hr, initWatchState]

/-! ## Claim theorems -/

/-- C1: for a burst of N ≥ 1 add/change events on one relative path, each
arriving within the 200ms quiet window of its predecessor, the pending
timer map never holds two timers for one path (each new event cancels and
replaces the previous timer), exactly one flush fires, 200ms after the
last event, and the sync call of that flush carries the bytes the disk
holds at flush time, not at first-event time. -/
theorem debounce_coalescing (w : WatchWorld) (p : String) (e0 : Ev) (rest : List Ev)
    (s : WatchState) (e : Ev)
    (h0p : e0.path = p) (h0k : e0.kind ≠ EvKind.unlink)
    (hb : sameBurst p e0.time rest)
    (hnd : noDupKeys s.pending = true) :
    (runWatch w (e0 :: rest)).flushes = [(lastT e0.time rest + DEBOUNCE_MS, p)] ∧
    (runWatch w (e0 :: rest)).calls =
      (match w.disk (lastT e0.time rest + DEBOUNCE_MS) p with
       | some c => [(lastT e0.time rest + DEBOUNCE_MS, p, classifyFile p c)]
       | none => []) ∧
    noDupKeys ((stepEv w s e).pending) = true := by
  have hstep0 : stepEv w initWatchState e0 =
      { initWatchState with pending := [(p, e0.time + DEBOUNCE_MS)] } := by
    cases hk : e0.kind
    case unlink => exact absurd hk h0k
    all_goals
      simp [stepEv, fireDue, fireDueAux, handleEvent, hk, initWatchState, h0p]
  have hrun : runEvents w (e0 :: rest) initWatchState =
      { initWatchState with pending := [(p, lastT e0.time rest + DEBOUNCE_MS)] } := by
    show runEvents w rest (stepEv w initWatchState e0) = _
    rw [hstep0, runEvents_burst w p rest e0.time _ hb rfl]
  have hw : runWatch w (e0 :: rest) =
      flushStep w (lastT e0.time rest + DEBOUNCE_MS) p initWatchState := by
    show fireAll w (runEvents w (e0 :: rest) initWatchState).pending
        { runEvents w (e0 :: rest) initWatchState with pending := [] } = _
    rw [hrun]
    rfl
  refine ⟨?_, ?_, nd_step w e s hnd⟩
  · rw [hw]; exact (flushStep_init w _ p).1
  · rw [hw]; exact (flushStep_init w _ p).2

/-- Witness for C1: two events 100ms apart flush once at 300ms with the
content read then. -/
theorem debounce_coalescing_witness :
    (runWatch wC1 [⟨0, EvKind.add, "a.txt"⟩, ⟨100, EvKind.change, "a.txt"⟩]).flushes
      = [(300, "a.txt")] ∧
    (runWatch wC1 [⟨0, EvKind.add, "a.txt"⟩, ⟨100, EvKind.change, "a.txt"⟩]).calls
      = [(300, "a.txt", classifyFile "a.txt" [104, 105])] := by
  have h := debounce_coalescing wC1 "a.txt" ⟨0, EvKind.add, "a.txt"⟩
    [⟨100, EvKind.change, "a.txt"⟩] initWatchState ⟨0, EvKind.add, "a.txt"⟩
    rfl (by simp) (by simp [sameBurst, DEBOUNCE_MS]) rfl
  exact ⟨h.1, h.2.1⟩

/-- C6: in the watch loop no per-change failure crashes the run: any
exception of the flush body (read failure or transport failure) is caught
and becomes a log line leaving the timer map intact, and after a failed
push a later event on the same path triggers a new, independent push. -/
theorem watch_resilience (w : WatchWorld) (p : String) (t0 t1 : Nat) (c1 c2 : Bytes)
    (em : String) (r : SyncResult)
    (hsep : t0 + DEBOUNCE_MS ≤ t1)
    (hd1 : w.disk (t0 + DEBOUNCE_MS) p = some c1)
    (hn1 : w.net (t0 + DEBOUNCE_MS) (classifyFile p c1) = Except.error em)
    (hd2 : w.disk (t1 + DEBOUNCE_MS) p = some c2)
    (hn2 : w.net (t1 + DEBOUNCE_MS) (classifyFile p c2) = Except.ok r)
    (hrs : r.success = true) :
    (runWatch w [⟨t0, EvKind.change, p⟩, ⟨t1, EvKind.change, p⟩]).calls
      = [(t0 + DEBOUNCE_MS, p, classifyFile p c1),
         (t1 + DEBOUNCE_MS, p, classifyFile p c2)] ∧
    (runWatch w [⟨t0, EvKind.change, p⟩, ⟨t1, EvKind.change, p⟩]).log
      = ["read error " ++ p, "synced " ++ p] ∧
    (∀ d q (s2 : WatchState) em2, flushTry w d q = Except.error em2 →
      (flushStep w d q s2).log = s2.log ++ ["read error " ++ q] ∧
      (flushStep w d q s2).pending = s2.pending) := by
  have key : runWatch w [⟨t0, EvKind.change, p⟩, ⟨t1, EvKind.change, p⟩] =
      { pending := [],
        flushes := [(t0 + DEBOUNCE_MS, p), (t1 + DEBOUNCE_MS, p)],
        calls := [(t0 + DEBOUNCE_MS, p, classifyFile p c1),
                  (t1 + DEBOUNCE_MS, p, classifyFile p c2)],
        log := ["read error " ++ p, "synced " ++ p] } := by
    simp [runWatch, runEvents, stepEv, fireDue, fireDueAux, handleEvent, flushStep, fireAll,
          initWatchState, hsep, hd1, hn1, hd2, hn2, hrs]
  refine ⟨by rw [key], by rw [key], ?_⟩
  intro d q s2 em2 hET
  unfold flushTry at hET
  cases hd : w.disk d q with
  | none => simp [flushStep, hd]
  | some c =>
    rw [hd] at hET
    have hET2 : w.net d (classifyFile q c) = Except.error em2 := hET
    cases hn : w.net d (classifyFile q c) with
    | error e2 => simp [flushStep, hd, hn]
    | ok rr => rw [hn] at hET2; simp at hET2

/-- Witness for C6: the 200ms push times out, the 1200ms push of the next
window succeeds independently. -/
theorem watch_resilience_witness :
    (runWatch wC6 [⟨0, EvKind.change, "p"⟩, ⟨1000, EvKind.change, "p"⟩]).calls
      = [(200, "p", classifyFile "p" [104]), (1200, "p", classifyFile "p" [104])] ∧
    (runWatch wC6 [⟨0, EvKind.change, "p"⟩, ⟨1000, EvKind.change, "p"⟩]).log
      = ["read error p", "synced p"] := by
  have h := watch_resilience wC6 "p" 0 1000 [104] [104] "timeout"
    { success := true, synced := ["p"], errors := [], reload_type := "full" }
    (by simp [DEBOUNCE_MS]) rfl rfl rfl rfl rfl
  exact ⟨h.1, h.2.1⟩

/-- C8: a rapid add, modify, remove burst on one path within one quiet
window collapses to a single flush; the flush re-reads the disk at
emission time, finds the file gone and pushes nothing; and in every run,
any pushed content is exactly what the disk held at that push instant, so
stale content is never pushed. -/
theorem add_modify_remove_collapse (w : WatchWorld) (p : String) (t0 t1 t2 : Nat)
    (_h01 : t0 ≤ t1) (h1w : t1 < t0 + DEBOUNCE_MS)
    (_h12 : t1 ≤ t2) (h2w : t2 < t1 + DEBOUNCE_MS)
    (hgone : w.disk (t1 + DEBOUNCE_MS) p = none) :
    (runWatch w [⟨t0, EvKind.add, p⟩, ⟨t1, EvKind.change, p⟩, ⟨t2, EvKind.unlink, p⟩]).flushes
      = [(t1 + DEBOUNCE_MS, p)] ∧
    (runWatch w [⟨t0, EvKind.add, p⟩, ⟨t1, EvKind.change, p⟩, ⟨t2, EvKind.unlink, p⟩]).calls
      = [] ∧
    (∀ evs x, x ∈ (runWatch w evs).calls →
      ∃ c, w.disk x.1 x.2.1 = some c ∧ x.2.2 = classifyFile x.2.1 c) := by
  have hq1 : ¬ (t0 + DEBOUNCE_MS ≤ t1) := by omega
  have hq2 : ¬ (t1 + DEBOUNCE_MS ≤ t2) := by omega
  have key : runWatch w [⟨t0, EvKind.add, p⟩, ⟨t1, EvKind.change, p⟩, ⟨t2, EvKind.unlink, p⟩] =
      { pending := [],
        flushes := [(t1 + DEBOUNCE_MS, p)],
        calls := [],
        log := ["deleted " ++ p, "read error " ++ p] } := by
    simp [runWatch, runEvents, stepEv, fireDue, fireDueAux, handleEvent, flushStep, fireAll,
          initWatchState, hq1, hq2, hgone]
  exact ⟨by rw [key], by rw [key], fun evs => fresh_runWatch w evs⟩

/-- Witness for C8: add at 0, modify at 50, remove at 100; the single flush
at 250 finds no file and nothing is pushed. -/
theorem add_modify_remove_collapse_witness :
    (runWatch wC8 [⟨0, EvKind.add, "a.liquid"⟩, ⟨50, EvKind.change, "a.liquid"⟩,
        ⟨100, EvKind.unlink, "a.liquid"⟩]).flushes = [(250, "a.liquid")] ∧
    (runWatch wC8 [⟨0, EvKind.add, "a.liquid"⟩, ⟨50, EvKind.change, "a.liquid"⟩,
        ⟨100, EvKind.unlink, "a.liquid"⟩]).calls = [] := by
  have h := add_modify_remove_collapse wC8 "a.liquid" 0 50 100
    (by omega) (by simp [DEBOUNCE_MS]) (by omega) (by simp [DEBOUNCE_MS]) rfl
  exact ⟨h.1, h.2.1⟩

/-- C10: the initial collection walk skips exactly the entries whose name
starts with a dot or equals node_modules or dist, so a .log file reached
through unskipped components is part of the initial sync batch; the
watcher configuration, which additionally ignores the log-file glob,
ignores that same path, so later modifications produce no watch event. -/
theorem log_ignore_asymmetry (tree : List FsEntry) (comps : List String) (c : Bytes)
    (name : String)
    (hlk : lookupEntries tree comps = some c)
    (hsk : ∀ x ∈ comps, collectSkip x = false)
    (hlast : comps.getLast? = some name)
    (hlog : strEndsWith name ".log" = true) :
    collectChange (joinPath comps) name c ∈ collectThemeFiles tree ∧
    watcherIgnored comps = true ∧
    collectSkip name = false := by
  refine ⟨?_, ?_, hsk name (getLast?_mem_self comps name hlast)⟩
  · have hmem := lookup_mem_entries tree comps c [] name hlk hsk hlast
    simpa [collectThemeFiles] using hmem
  · simp [watcherIgnored, hlast, hlog]

/-- Witness for C10: assets/debug.log is collected by the initial sync and
ignored by the watcher. -/
theorem log_ignore_asymmetry_witness :
    collectChange "assets/debug.log" "debug.log" [104, 105] ∈ collectThemeFiles c10Tree ∧
    watcherIgnored ["assets", "debug.log"] = true ∧
    collectSkip "debug.log" = false := by
  have h := log_ignore_asymmetry c10Tree ["assets", "debug.log"] [104, 105] "debug.log"
    rfl (by decide) rfl (by decide)
  exact ⟨h.1, h.2.1, h.2.2⟩

/-- C2: the checksum of a produced FileChange is the SHA-256 hex digest of
the raw bytes computed before any encoding, identical whichever encoding
the extension selects and identical across repeated computations, both in
the per-change flush construction (`classifyFile`) and in the initial
full-sync collection (`collectChange`). -/
theorem checksum_stability (p p1 p2 relPath name : String) (c : Bytes) :
    (classifyFile p c).checksum = sha256hex c ∧
    (collectChange relPath name c).checksum = sha256hex c ∧
    (classifyFile p1 c).checksum = (classifyFile p2 c).checksum ∧
    (classifyFile p c).checksum = (collectChange relPath name c).checksum :=
  ⟨rfl, rfl, rfl, rfl⟩

/-- C3: the encoding of a produced FileChange is determined solely by the
lowercased extension of the path against the fixed binary allow-list,
independent of the byte content; in particular a .png is base64 whatever
its bytes are. -/
theorem encoding_determinism (p : String) (c c1 c2 : Bytes) :
    (classifyFile p c).encoding =
      (if BINARY_EXTENSIONS.contains (strToLower (extname p)) then Encoding.base64
       else Encoding.utf8) ∧
    (classifyFile p c1).encoding = (classifyFile p c2).encoding ∧
    BINARY_EXTENSIONS = [".png", ".jpg", ".jpeg", ".webp", ".woff", ".woff2", ".ico", ".gif"] ∧
    (classifyFile "logo.png" c).encoding = Encoding.base64 ∧
    (classifyFile "OCTOCAT.PNG" c).encoding = Encoding.base64 :=
  ⟨rfl, rfl, rfl, rfl, rfl⟩

/-- C9: the unlink handler performs no remote call and schedules nothing:
it leaves the sync-call list, the timer map and the flush log untouched
and only appends the local deletion log line. -/
theorem unlink_local_only (e : Ev) (s : WatchState) (h : e.kind = EvKind.unlink) :
    (handleEvent e s).calls = s.calls ∧
    (handleEvent e s).pending = s.pending ∧
    (handleEvent e s).flushes = s.flushes ∧
    (handleEvent e s).log = s.log ++ ["deleted " ++ e.path] := by
  simp [handleEvent, h]

/-- Witness for C9 at a concrete unlink event. -/
theorem unlink_local_only_witness :
    (handleEvent ⟨5, EvKind.unlink, "a.txt"⟩ initWatchState).calls = [] ∧
    (handleEvent ⟨5, EvKind.unlink, "a.txt"⟩ initWatchState).pending = [] ∧
    (handleEvent ⟨5, EvKind.unlink, "a.txt"⟩ initWatchState).log = ["deleted a.txt"] := by
  have h := unlink_local_only ⟨5, EvKind.unlink, "a.txt"⟩ initWatchState rfl
  exact ⟨h.1, h.2.1, h.2.2.2⟩

/-- C4 as stated is false on the code: `cleanup` never clears `session`,
so invoking the shutdown path twice after a successful connect attempts
the disconnect request twice, not at most once. -/
theorem shutdown_idempotence_counterexample :
    ¬ ((cleanup (Except.ok ()) (cleanup (Except.ok ()) c4State)).disconnectAttempts ≤ 1) := by
  decide

/-- C4 amended: each invocation of `cleanup` while a session is held
attempts exactly one disconnect, so a double invocation attempts exactly
two (the session field is never cleared), and no invocation throws: a
failing disconnect fetch only appends the warning line. -/
theorem shutdown_cleanup_amended (netDisc : Except String Unit) (s : CliState)
    (h : s.session.isSome = true) :
    (cleanup netDisc s).disconnectAttempts = s.disconnectAttempts + 1 ∧
    (cleanup netDisc (cleanup netDisc s)).disconnectAttempts = s.disconnectAttempts + 2 ∧
    (cleanup netDisc s).session = s.session ∧
    (∀ e, netDisc = Except.error e →
      (cleanup netDisc s).warnings = s.warnings ++ ["Failed to disconnect cleanly"]) := by
  obtain ⟨w, sess, wc, da, wa⟩ := s
  cases sess with
  | none => simp at h
  | some tk =>
    cases w <;>
      refine ⟨by simp [cleanup], by simp [cleanup], by simp [cleanup], ?_⟩ <;>
      (intro e he; subst he; simp [cleanup, disconnectSession])

/-- Witness for C4 amended at a concrete state and failing disconnect. -/
theorem shutdown_cleanup_amended_witness :
    (cleanup (Except.error "net down") c4State).disconnectAttempts = 1 ∧
    (cleanup (Except.error "net down")
      (cleanup (Except.error "net down") c4State)).disconnectAttempts = 2 ∧
    (cleanup (Except.error "net down") c4State).warnings =
      ["Failed to disconnect cleanly"] := by
  have h := shutdown_cleanup_amended (Except.error "net down") c4State rfl
  exact ⟨h.1, h.2.1, h.2.2.2 "net down" rfl⟩

/-- C5: when the connect response has a non-success status, `devCommand`
exits non-zero before any watcher starts, never calls disconnect, and the
thrown message is the remote-provided error field when the body supplies a
non-empty one, else the generic fallback. -/
theorem connect_failure_handling (w : DevWorld)
    (hm : w.manifestExists = true) (hok : w.connResp.ok = false) :
    devCommand w =
      { exitCode := some 1, watcherStarted := false, initialSyncAttempts := 0,
        validateAttempts := 0, disconnectAttempts := 0, reportedErrors := [],
        fatalError := some (httpErrorMessage "Connection failed: " w.connResp) } ∧
    (∀ m, w.connResp.jsonOk = true → w.connResp.errField = some m → m ≠ "" →
      httpErrorMessage "Connection failed: " w.connResp = m) ∧
    (w.connResp.jsonOk = true → w.connResp.errField = none →
      httpErrorMessage "Connection failed: " w.connResp =
        "Connection failed: " ++ toString w.connResp.status) := by
  refine ⟨?_, ?_, ?_⟩
  · simp [devCommand, connectToShop, hm, hok]
  · intro m hj he hne
    simp [httpErrorMessage, hj, he, hne]
  · intro hj he
    simp [httpErrorMessage, hj, he]

/-- Witness for C5: HTTP 401 with a remote-provided message. -/
theorem connect_failure_handling_witness :
    (devCommand c5World).exitCode = some 1 ∧
    (devCommand c5World).watcherStarted = false ∧
    (devCommand c5World).disconnectAttempts = 0 ∧
    (devCommand c5World).fatalError = some "invalid credentials" := by
  have h := connect_failure_handling c5World rfl rfl
  rw [h.1]
  refine ⟨rfl, rfl, rfl, ?_⟩
  have hm := h.2.1 "invalid credentials" rfl rfl (by decide)
  simp [hm]

/-- C7: `syncFiles` returns the parsed SyncResult exactly when the HTTP
response is successful (even when that result has success = false) and
throws exactly when the status is non-success; and an initial-sync
SyncResult with success = false is reported per error but non-fatal: the
run proceeds to validate and then to watching with a single sync attempt. -/
theorem transport_vs_inband (r : HttpResp SyncResult) (w : DevWorld)
    (hm : w.manifestExists = true) (hc : w.connResp.ok = true)
    (hs : w.syncResp.ok = true) (hf : w.syncResp.payload.success = false)
    (hv : w.valResp.ok = true) :
    (r.ok = true → syncFiles r = Except.ok r.payload) ∧
    (r.ok = false → syncFiles r = Except.error (httpErrorMessage "Sync failed: " r)) ∧
    devCommand w =
      { exitCode := none, watcherStarted := true, initialSyncAttempts := 1,
        validateAttempts := 1, disconnectAttempts := 0,
        reportedErrors := w.syncResp.payload.errors, fatalError := none } := by
  refine ⟨?_, ?_, ?_⟩
  · intro h; simp [syncFiles, h]
  · intro h; simp [syncFiles, h]
  · simp [devCommand, connectToShop, syncFiles, validateTheme, hm, hc, hs, hf, hv]

/-- Witness for C7: a 500 response throws; an in-band rejection during the
initial sync still reaches watching. -/
theorem transport_vs_inband_witness :
    syncFiles c7Resp = Except.error "Server Error" ∧
    (devCommand c7World).exitCode = none ∧
    (devCommand c7World).watcherStarted = true ∧
    (devCommand c7World).reportedErrors = ["bad liquid"] := by
  have h := transport_vs_inband c7Resp c7World rfl rfl rfl rfl rfl
  refine ⟨?_, ?_, ?_, ?_⟩
  · have := h.2.1 rfl
    simpa [httpErrorMessage, c7Resp] using this
  · rw [h.2.2]
  · rw [h.2.2]
  · rw [h.2.2]; rfl

end SpwigDev
